import Mathlib

/-!
# Verification of the euphrosyne-tools-api file-store access layer

Shallow embedding of the remote file-store access layer of
`euphrosyne-tools-api` (`clients/azure/data.py`, `auth.py`, `api/data.py`):

* path grammar and authorization (`validate_run_data_file_path`,
  `_validate_project_file_path`);
* capability-token (SAS URL) issuing and its permission table;
* the lazy recursive directory walker (`_list_files_recursive`) and the
  listing operations built on it;
* the seekable chunked remote-file stream (`AzureFileShareFile`) with its
  `functools.lru_cache`-backed range cache;
* run-directory renaming (`rename_run_directory`).

Machine strings are modelled as Lean `String` / `List Char` (the `\w` class
of the Python regexes is modelled at its ASCII core: letters, digits and
underscore).  Datetimes are modelled as natural-number seconds.  Network
calls are modelled as lookups into explicit provider state passed as an
argument; fallible operations return `Except`.
-/

set_option autoImplicit false

namespace Euphro

/-! ## Data model (`auth.py`) -/

/-- The `auth.Project` (`auth.py` lines 17-19): a project the user belongs to. -/
structure Project where
  id : Int
  name : String
  deriving DecidableEq, Repr

/-- The authenticated user.  `auth.py` (lines 22-24) declares `id` and
`projects`; the `is_admin` flag and the membership check used by
`clients/azure/data.py` live in the repository's full auth layer, which is
not shipped under `src/`.  Modelled from the spec: `User{id, projects[],
is_admin}` "with a membership check" (spec section 1 and section 3). -/
structure User where
  id : Int
  projects : List Project
  is_admin : Bool
  deriving DecidableEq, Repr

/-- Modelled from the spec (section 4.1): the user "has a project whose name
equals `project_segment` exactly (case-sensitive, no slug normalization)". -/
def User.has_project (u : User) (name : String) : Bool :=
  u.projects.any fun p => p.name = name

/-! ## Path grammar (`clients/azure/data.py` lines 389-421)

The validator matches `str(path)` against the regex

`^<prefix>\/[\w\- ]+\/runs\/[\w\- ]+\/(raw_data|processed_data|HDF5)\/`

with `re.match` (anchored at the start only).  Because `/` is not a member
of the class `[\w\- ]`, the greedy `[\w\- ]+\/` is equivalent to taking the
maximal run of class characters and then requiring a literal `/`: a shorter
run would leave a class character (which is not `/`) in front, so no
backtracking alternative can succeed.  The deterministic parser below is
therefore equivalent to the regex (for a prefix containing no regex
metacharacters, as in the deployed configuration). -/

/-- ASCII core of the Python regex class `\w`: letters, digits, underscore. -/
def isWordChar (c : Char) : Bool :=
  c.isAlphanum || c = '_'

/-- The regex character class `[\w\- ]`. -/
def isSegChar (c : Char) : Bool :=
  isWordChar c || c = '-' || c = ' '

/-- Match a literal at the front of the input, returning the remainder. -/
def dropLit : List Char → List Char → Option (List Char)
  | [], s => some s
  | _ :: _, [] => none
  | p :: ps, c :: cs => if p = c then dropLit ps cs else none

/-- Match `[\w\- ]+` greedily, returning the matched (nonempty) segment and
the remainder. -/
def matchSeg (l : List Char) : Option (List Char × List Char) :=
  let seg := l.takeWhile isSegChar
  if seg.isEmpty then none else some (seg, l.dropWhile isSegChar)

/-- The anchored regex test of `validate_run_data_file_path`
(`clients/azure/data.py` lines 390-393). -/
def matchRunDataPath (pre : List Char) (l : List Char) : Bool :=
  match dropLit (pre ++ "/".data) l with
  | none => false
  | some r0 =>
    match matchSeg r0 with
    | none => false
    | some (_, r1) =>
      match dropLit "/runs/".data r1 with
      | none => false
      | some r2 =>
        match matchSeg r2 with
        | none => false
        | some (_, r3) =>
          (dropLit "/raw_data/".data r3).isSome ||
          (dropLit "/processed_data/".data r3).isSome ||
          (dropLit "/HDF5/".data r3).isSome

/-- Python `str.replace(pat, "", 1)`: delete the first occurrence of `pat`. -/
def replaceFirst (pat : List Char) : List Char → List Char
  | [] => []
  | c :: cs =>
    match dropLit pat (c :: cs) with
    | some rest => rest
    | none => c :: replaceFirst pat cs

/-- The `pathlib.Path(s).parts[0]` for the stripped path: on the inputs reachable
here the stripped path starts with a `[\w\- ]` character, so `parts[0]` is
the text up to the first `/`. -/
def firstPart (l : List Char) : List Char :=
  l.takeWhile fun c => !(c = '/')

/-- The `IncorrectDataFilePath` messages raised by the validators. -/
inductive ValidationError where
  | badRunDataPath
  | userNotInProject (projectName : String)
  deriving DecidableEq, Repr

/-- The `message` attribute of the raised `IncorrectDataFilePath`
(`clients/azure/data.py` lines 395-397 and line 421). -/
def ValidationError.message : ValidationError → String
  | .badRunDataPath =>
      "path must start with \x7bprojects_path_prefix\x7d/<project_name>/runs/<run_name>/(processed_data|raw_data|HDF5)/"
  | .userNotInProject n => "user is not part of project " ++ n

/-- The `_validate_project_file_path` (`clients/azure/data.py` lines 413-421):
strip the first occurrence of `prefix + "/"`, take the first path segment as
the project name, and require membership or admin. -/
def validate_project_file_path (pre path : String) (u : User) :
    Except ValidationError Unit :=
  let stripped := replaceFirst (pre.data ++ "/".data) path.data
  let projectName := String.mk (firstPart stripped)
  if !u.has_project projectName && !u.is_admin then
    Except.error (ValidationError.userNotInProject projectName)
  else
    Except.ok ()

/-- The `validate_run_data_file_path` (`clients/azure/data.py` lines 389-398). -/
def validate_run_data_file_path (pre path : String) (u : User) :
    Except ValidationError Unit :=
  if matchRunDataPath pre.data path.data then
    validate_project_file_path pre path u
  else
    Except.error ValidationError.badRunDataPath

/-! ## Capability tokens (`clients/azure/data.py` lines 195-246)

Datetimes are modelled as natural-number seconds; `timedelta(minutes=5)`
is `5 * 60` seconds.  The Azure signing primitive
(`FileSharedAccessSignature.generate_file`) is opaque: it is modelled as an
arbitrary function `sign` from the request it receives to the signed query
string. -/

/-- The `azure.storage.file.models.FilePermissions`: four independent flags. -/
structure FilePermissions where
  read : Bool
  write : Bool
  create : Bool
  delete : Bool
  deriving DecidableEq, Repr

/-- The arguments `_generate_sas_url` passes to
`FileSharedAccessSignature.generate_file` (lines 237-244). -/
structure SasRequest where
  share_name : String
  directory_name : String
  file_name : String
  permission : FilePermissions
  start : Nat
  expiry : Nat
  deriving DecidableEq, Repr

/-- The `os.path.join` for the relative components used in this module: empty
components are skipped, the rest joined with `/`. -/
def joinPath (parts : List String) : String :=
  String.intercalate "/" (parts.filter fun p => p ≠ "")

/-- The `DataAzureClient._generate_sas_url` (lines 228-246): build the signing
request with `start = now`, `expiry = now + 5 minutes`, and return the URL
`https://{account}.file.core.windows.net/{share}/{dir}/{file}?{params}`
together with the request passed to the signer. -/
def generate_sas_url (account shareName : String) (sign : SasRequest → String)
    (dirPath fileName : String) (perm : FilePermissions) (now : Nat) :
    String × SasRequest :=
  let req : SasRequest :=
    { share_name := shareName
      directory_name := dirPath
      file_name := fileName
      permission := perm
      start := now
      expiry := now + 5 * 60 }
  ("https://" ++ account ++ ".file.core.windows.net/" ++ shareName ++ "/" ++
      dirPath ++ "/" ++ fileName ++ "?" ++ sign req,
    req)

/-- The `generate_run_data_sas_url` (lines 195-207): regular users read; admins
also write, create and delete. -/
def generate_run_data_sas_url (account shareName : String)
    (sign : SasRequest → String) (dirPath fileName : String) (is_admin : Bool)
    (now : Nat) : String × SasRequest :=
  generate_sas_url account shareName sign dirPath fileName
    { read := true, create := is_admin, write := is_admin, delete := is_admin }
    now

/-- The `generate_project_documents_upload_sas_url` (lines 209-218): write and
create only, on the project's `documents` directory. -/
def generate_project_documents_upload_sas_url (account shareName : String)
    (sign : SasRequest → String) (pre projectName fileName : String)
    (now : Nat) : String × SasRequest :=
  generate_sas_url account shareName sign
    (joinPath [pre, projectName, "documents"]) fileName
    { read := false, create := true, write := true, delete := false } now

/-- The `generate_project_documents_sas_url` (lines 220-226): read and delete
only. -/
def generate_project_documents_sas_url (account shareName : String)
    (sign : SasRequest → String) (dirPath fileName : String) (now : Nat) :
    String × SasRequest :=
  generate_sas_url account shareName sign dirPath fileName
    { read := true, create := false, write := false, delete := true } now

/-! ## Directory walker (`clients/azure/data.py` lines 326-386)

The remote share directory content is modelled as a static tree of entries;
`list_directories_and_files()` returns the children of a directory in
provider order, which is exactly the order of the `List`. -/

/-- One entry of a provider directory listing.  A file node carries the
metadata the provider holds for it (name, size, last-modified time); the
bulk listing response omits `last_modified`, the per-file
`get_file_properties` fetch returns it. -/
inductive FsEntry where
  | file (name : String) (size : Nat) (lastModified : Nat)
  | dir (name : String) (children : List FsEntry)
  deriving Repr

/-- The `ProjectFile` (`clients/azure/data.py` lines 60-64). -/
structure ProjectFile where
  name : String
  last_modified : Option Nat
  size : Nat
  path : Option String
  deriving DecidableEq, Repr

/-- The `_list_files_recursive` (lines 326-386), flattening the generator to the
list of yielded `ProjectFile`s.  Faithful to the source: for a directory
entry the walker recurses at the point the entry appears in the listing,
and the recursive call at lines 371-373 does NOT forward
`fetch_detailed_information`, so it recurses with the default `False`.
In fast mode a file yields `ProjectFile.parse_obj({**file, "path": path})`
(no `last_modified` key, hence `none`); in detailed mode it yields the
per-file `get_file_properties()` metadata, which includes the
last-modified time. -/
def listFilesRecursive (dirPath : String) (fetchDetailed : Bool) :
    List FsEntry → List ProjectFile
  | [] => []
  | FsEntry.dir name children :: rest =>
    listFilesRecursive (dirPath ++ "/" ++ name) false children ++
      listFilesRecursive dirPath fetchDetailed rest
  | FsEntry.file name size lastModified :: rest =>
    (if fetchDetailed then
      { name := name, last_modified := some lastModified, size := size
        path := some (dirPath ++ "/" ++ name) }
    else
      { name := name, last_modified := none, size := size
        path := some (dirPath ++ "/" ++ name) }) ::
      listFilesRecursive dirPath fetchDetailed rest

/-- Number of file nodes in a forest (empty directories contribute none). -/
def countFiles : List FsEntry → Nat
  | [] => 0
  | FsEntry.file _ _ _ :: rest => 1 + countFiles rest
  | FsEntry.dir _ children :: rest => countFiles children + countFiles rest

/-- Specification-side description of the walker's yield order, following
the words of the amended traversal contract: entries are processed in
provider listing order, a file is yielded where it appears and a
directory's whole subtree is emitted (depth-first) where the directory
appears, before the next sibling entry. -/
def flattenNames : List FsEntry → List String
  | [] => []
  | FsEntry.file name _ _ :: rest => name :: flattenNames rest
  | FsEntry.dir _ children :: rest => flattenNames children ++ flattenNames rest

/-! ## Top-level listing operations (`clients/azure/data.py` lines 150-178)

The provider is modelled as a partial map from a directory path to its
listing (a static snapshot of the share): `none` means the directory does
not exist, in which case iterating the listing generator raises
`ResourceNotFoundError` at its first step. -/

/-- Domain errors of the two listing call sites. -/
inductive ListingError where
  | runDataNotFound
  | projectDocumentsNotFound
  deriving DecidableEq, Repr

/-- Force the `_list_files_recursive` generator into a list, translating the
provider's not-found into `Except.error`. -/
def listFilesTop (provider : String → Option (List FsEntry))
    (dirPath : String) (fetchDetailed : Bool) :
    Except Unit (List ProjectFile) :=
  match provider dirPath with
  | none => Except.error ()
  | some entries => Except.ok (listFilesRecursive dirPath fetchDetailed entries)

/-- The `get_project_documents` (lines 150-159): detailed listing of
`<prefix>/<project>/documents`; `ResourceNotFoundError` raised while
forcing the generator becomes `ProjectDocumentsNotFound`. -/
def get_project_documents (provider : String → Option (List FsEntry))
    (pre projectName : String) : Except ListingError (List ProjectFile) :=
  match listFilesTop provider (joinPath [pre, projectName, "documents"]) true with
  | Except.error _ => Except.error ListingError.projectDocumentsNotFound
  | Except.ok files => Except.ok files

/-- The `get_run_files` (lines 161-178): fast listing of
`<prefix>/<project>/runs/<run>/<data_type>`; `ResourceNotFoundError`
becomes `RunDataNotFound`. -/
def get_run_files (provider : String → Option (List FsEntry))
    (pre projectName runName dataType : String) :
    Except ListingError (List ProjectFile) :=
  match listFilesTop provider
      (joinPath [pre, projectName, "runs", runName, dataType]) false with
  | Except.error _ => Except.error ListingError.runDataNotFound
  | Except.ok files => Except.ok files

/-! ## Chunked remote file stream (`clients/azure/data.py` lines 67-139)

File bytes are modelled as `List Nat`.  The `@functools.lru_cache` on
`_read_chunk` is a class-level LRU table with the default `maxsize=128`;
because `self` is part of the key, a single stream driven alone behaves as
an LRU cache of capacity 128 over `(start_range, end_range)` keys, modelled
here as an association list with the most recently used entry first.
`fetches` counts the network range downloads (`get_file_to_bytes` calls). -/

/-- The `functools.lru_cache` default `maxsize`. -/
def lruMaxSize : Nat := 128

/-- Key of a `_read_chunk` call: `(start_range, end_range)`;
`end_range = None` is the read-to-end download. -/
abbrev ChunkKey := Int × Option Int

/-- Cached value: the downloaded bytes and the reported content length. -/
abbrev ChunkVal := List Nat × Nat

/-- State of one `AzureFileShareFile` stream. -/
structure FileStream where
  content : List Nat
  offset : Int
  lengthCache : Option Nat
  chunkCache : List (ChunkKey × ChunkVal)
  fetches : Nat
  deriving DecidableEq, Repr

/-- A fresh stream as built by `AzureFileShareFile.__init__`: offset `0`,
no cached content length, empty range cache. -/
def freshStream (content : List Nat) : FileStream :=
  { content := content, offset := 0, lengthCache := none, chunkCache := []
    fetches := 0 }

/-- The bytes `get_file_to_bytes` returns for the inclusive range
`[start_range, end_range]` (`end_range = None`: to end of file). -/
def fetchRange (content : List Nat) (startRange : Int) (endRange : Option Int) :
    List Nat :=
  match endRange with
  | none => content.drop startRange.toNat
  | some e => (content.take (e.toNat + 1)).drop startRange.toNat

/-- Find a key in the LRU association list, returning its value and the
list with that entry removed (so the caller can reinsert it at the
most-recently-used position). -/
def cacheExtract (key : ChunkKey) : List (ChunkKey × ChunkVal) →
    Option (ChunkVal × List (ChunkKey × ChunkVal))
  | [] => none
  | (k, v) :: rest =>
    if k = key then some (v, rest)
    else
      match cacheExtract key rest with
      | some (v', rest') => some (v', (k, v) :: rest')
      | none => none

/-- The `_read_chunk` (lines 97-106) under its `@functools.lru_cache`: on a hit
the cached `(content, content_length)` pair is returned with no network
fetch (and the entry becomes most recently used); on a miss the range is
downloaded, counted in `fetches`, and inserted, evicting the least recently
used entry beyond capacity `128`. -/
def readChunk (s : FileStream) (startRange : Int) (endRange : Option Int) :
    ChunkVal × FileStream :=
  let key : ChunkKey := (startRange, endRange)
  match cacheExtract key s.chunkCache with
  | some (v, rest) => (v, { s with chunkCache := (key, v) :: rest })
  | none =>
    let v : ChunkVal := (fetchRange s.content startRange endRange, s.content.length)
    (v, { s with chunkCache := ((key, v) :: s.chunkCache).take lruMaxSize,
                 fetches := s.fetches + 1 })

/-- The `AzureFileShareFile.read` (lines 108-116): `size = 0` returns empty
bytes with no fetch; `size > -1` downloads the inclusive range
`[offset, offset + size - 1]` and advances the offset by `size`; a negative
`size` downloads from the offset to end of file and sets the offset to the
reported content length. -/
def read (s : FileStream) (size : Int) : List Nat × FileStream :=
  if size = 0 then ([], s)
  else
    let endRange : Option Int := if size > -1 then some (s.offset + size - 1) else none
    let res := readChunk s s.offset endRange
    let newOffset : Int :=
      match endRange with
      | some _ => s.offset + size
      | none => (res.1.2 : Int)
    (res.1.1, { res.2 with offset := newOffset })

/-- The `content_length` property (lines 73-82): fetched lazily by a
metadata call, cached in `_content_length` after first use. -/
def content_length (s : FileStream) : Nat × FileStream :=
  match s.lengthCache with
  | some l => (l, s)
  | none => (s.content.length, { s with lengthCache := some s.content.length })

/-- The `whence` argument of `seek`. -/
inductive Whence where
  | set
  | cur
  | seekEnd
  deriving DecidableEq, Repr

/-- The `AzureFileShareFile.seek` (lines 123-130).  Note the from-end case sets
`offset := content_length - offset`, not `content_length + offset`. -/
def seek (s : FileStream) (off : Int) (whence : Whence) : Int × FileStream :=
  match whence with
  | Whence.set => (off, { s with offset := off })
  | Whence.cur => (s.offset + off, { s with offset := s.offset + off })
  | Whence.seekEnd =>
    let r := content_length s
    ((r.1 : Int) - off, { r.2 with offset := (r.1 : Int) - off })

/-- The `seek(i, SEEK_SET)` discarding the returned position. -/
def seekSet (s : FileStream) (off : Int) : FileStream :=
  (seek s off Whence.set).2

/-! ## Directory lifecycle: rename (`clients/azure/data.py` lines 279-296) -/

/-- Split a lowered character list into its maximal alphanumeric words,
dropping every non-alphanumeric character; `acc` holds the reversed word
being read. -/
def slugWords : List Char → List Char → List (List Char)
  | [], acc => if acc.isEmpty then [] else [acc.reverse]
  | c :: cs, acc =>
    if c.isAlphanum then slugWords cs (c :: acc)
    else if acc.isEmpty then slugWords cs []
    else acc.reverse :: slugWords cs []

/-- The `python-slugify` restricted to ASCII input: lowercase the text, split on
every non-alphanumeric character, join the nonempty pieces with `-`. -/
def slugify (s : String) : String :=
  String.intercalate "-"
    ((slugWords (s.data.map Char.toLower) []).map String.mk)

/-- Azure provider errors relevant to `rename_directory`; each carries the
provider's message. -/
inductive AzureError where
  | resourceNotFound (message : String)
  | resourceExists (message : String)
  deriving DecidableEq, Repr

/-- The provider message carried by an `AzureError`. -/
def AzureError.message : AzureError → String
  | .resourceNotFound m => m
  | .resourceExists m => m

/-- The `FolderCreationError` (lines 48-51): wraps the provider's message. -/
structure FolderCreationError where
  message : String
  deriving DecidableEq, Repr

/-- The provider's not-found message. -/
def resourceNotFoundMessage : String := "The specified resource does not exist."

/-- The provider's already-exists message. -/
def resourceExistsMessage : String := "The specified resource already exists."

/-- The share's directory set, as the list of existing directory paths. -/
abbrev ShareDirs := List String

/-- Rewrite one path under a directory rename from `src` to `dst`. -/
def renamePath (src dst p : String) : String :=
  if p = src then dst
  else if List.isPrefixOf (src.data ++ ['/']) p.data then
    dst ++ String.mk (p.data.drop src.length)
  else p

/-- The `ShareDirectoryClient.rename_directory(new_path, overwrite=False)` on the
modelled share: not-found if the source directory is missing, already-exists
if the destination is present and `overwrite` is disabled; otherwise the
directory (and its subtree) is moved and the share state updated. -/
def renameDirectory (share : ShareDirs) (src dst : String) (overwrite : Bool) :
    Except AzureError ShareDirs :=
  if !share.contains src then
    Except.error (AzureError.resourceNotFound resourceNotFoundMessage)
  else if share.contains dst && !overwrite then
    Except.error (AzureError.resourceExists resourceExistsMessage)
  else
    Except.ok (share.map (renamePath src dst))

/-- The rename request issued by `rename_run_directory`. -/
structure RenameRequest where
  src : String
  dst : String
  overwrite : Bool
  deriving DecidableEq, Repr

/-- The `rename_run_directory` (lines 279-296): rename
`<prefix>/<slug(project)>/runs/<run>` to `<prefix>/<slug(project)>/runs/<new>`
with `overwrite=False`, translating `ResourceNotFoundError` and
`ResourceExistsError` into `FolderCreationError(error.message)`.  Returns
the issued request alongside the outcome; on an error the share state is
untouched (only the `Except.ok` branch carries a new state). -/
def rename_run_directory (share : ShareDirs)
    (pre runName projectName newName : String) :
    RenameRequest × Except FolderCreationError ShareDirs :=
  let src := joinPath [pre, slugify projectName, "runs", runName]
  let dst := joinPath [pre, slugify projectName, "runs", newName]
  let req : RenameRequest := { src := src, dst := dst, overwrite := false }
  match renameDirectory share src dst false with
  | Except.error e => (req, Except.error { message := e.message })
  | Except.ok share' => (req, Except.ok share')

/-! ## Theorems -/

/-! ### Path grammar lemmas -/

/-- Lemma: `dropLit` succeeds exactly on inputs that start with the literal. -/
theorem dropLit_eq_some (p : List Char) : ∀ s r, dropLit p s = some r ↔ s = p ++ r := by
  induction p with
  | nil => intro s r; simp [dropLit]
  | cons ph pt ih =>
    intro s r
    cases s with
    | nil => simp [dropLit]
    | cons ch ct =>
      simp only [dropLit, List.cons_append, List.cons.injEq]
      by_cases h : ph = ch
      · subst h
        simp [ih]
      · rw [if_neg h]
        constructor
        · intro hco
          exact Option.noConfusion hco
        · rintro ⟨h1, -⟩
          exact absurd h1.symm h

/-- Lemma: `takeWhile`/`dropWhile` on a block that satisfies the predicate followed
by a tail whose head (if any) fails it. -/
theorem takeWhile_append_stop (p : Char → Bool) :
    ∀ xs tl : List Char, (∀ x ∈ xs, p x = true) →
      (∀ c, tl.head? = some c → p c = false) →
      (xs ++ tl).takeWhile p = xs ∧ (xs ++ tl).dropWhile p = tl := by
  intro xs
  induction xs with
  | nil =>
    intro tl _ hstop
    cases tl with
    | nil => simp
    | cons c ct => simp [List.takeWhile_cons, List.dropWhile_cons, hstop c rfl]
  | cons x xs ih =>
    intro tl hall hstop
    have hx : p x = true := hall x (List.mem_cons_self x xs)
    have ih' := ih tl (fun z hz => hall z (List.mem_cons_of_mem x hz)) hstop
    simp [List.takeWhile_cons, List.dropWhile_cons, hx, ih'.1, ih'.2]

/-- Characterization of a successful `matchSeg`. -/
theorem matchSeg_some {l seg rest : List Char}
    (h : matchSeg l = some (seg, rest)) :
    l = seg ++ rest ∧ seg ≠ [] ∧ ∀ c ∈ seg, isSegChar c = true := by
  unfold matchSeg at h
  by_cases he : (l.takeWhile isSegChar).isEmpty
  · simp [he] at h
  · simp only [he, if_neg, Bool.false_eq_true, not_false_eq_true, if_false,
      Option.some.injEq, Prod.mk.injEq] at h
    obtain ⟨h1, h2⟩ := h
    subst h1
    subst h2
    refine ⟨(List.takeWhile_append_dropWhile _ _).symm, ?_,
      fun c hc => List.mem_takeWhile_imp hc⟩
    intro hnil
    rw [hnil] at he
    exact he rfl

/-- Lemma: `matchSeg` on a valid segment followed by a non-segment character. -/
theorem matchSeg_append (seg tl : List Char) (hne : seg ≠ [])
    (hall : ∀ c ∈ seg, isSegChar c = true)
    (hstop : ∀ c, tl.head? = some c → isSegChar c = false) :
    matchSeg (seg ++ tl) = some (seg, tl) := by
  have h := takeWhile_append_stop isSegChar seg tl hall hstop
  unfold matchSeg
  rw [h.1, h.2]
  simp [hne]

/-- A segment character is never a slash. -/
theorem isSegChar_ne_slash {c : Char} (h : isSegChar c = true) : ¬c = '/' := by
  intro he
  subst he
  exact absurd h (by decide)

/-- The anchored run-data regex accepts exactly the paths
`<prefix>/<proj>/runs/<run>/<data_type>/<anything>` with nonempty `proj` and
`run` drawn from `[\w\- ]` and `data_type` one of the three literals. -/
theorem matchRunDataPath_iff (pre l : List Char) :
    matchRunDataPath pre l = true ↔
      ∃ proj run dt rest : List Char,
        l = pre ++ "/".data ++ proj ++ "/runs/".data ++ run ++ "/".data ++
          dt ++ "/".data ++ rest ∧
        proj ≠ [] ∧ (∀ c ∈ proj, isSegChar c = true) ∧
        run ≠ [] ∧ (∀ c ∈ run, isSegChar c = true) ∧
        (dt = "raw_data".data ∨ dt = "processed_data".data ∨
          dt = "HDF5".data) := by
  constructor
  · intro h
    unfold matchRunDataPath at h
    cases h0 : dropLit (pre ++ "/".data) l with
    | none => simp [h0] at h
    | some r0 =>
      simp only [h0] at h
      cases h1 : matchSeg r0 with
      | none => simp [h1] at h
      | some pr =>
        obtain ⟨proj, r1⟩ := pr
        simp only [h1] at h
        cases h2 : dropLit "/runs/".data r1 with
        | none => simp [h2] at h
        | some r2 =>
          simp only [h2] at h
          cases h3 : matchSeg r2 with
          | none => simp [h3] at h
          | some qr =>
            obtain ⟨run, r3⟩ := qr
            simp only [h3] at h
            have hl0 := (dropLit_eq_some _ _ _).mp h0
            obtain ⟨hr0, hpne, hpall⟩ := matchSeg_some h1
            have hr1 := (dropLit_eq_some _ _ _).mp h2
            obtain ⟨hr2, hrne, hrall⟩ := matchSeg_some h3
            rw [Bool.or_eq_true, Bool.or_eq_true] at h
            rcases h with (h4 | h4) | h4
            · obtain ⟨rest, h4'⟩ := Option.isSome_iff_exists.mp h4
              have hr3 := (dropLit_eq_some _ _ _).mp h4'
              refine ⟨proj, run, "raw_data".data, rest, ?_, hpne, hpall,
                hrne, hrall, Or.inl rfl⟩
              rw [hl0, hr0, hr1, hr2, hr3]
              simp [List.append_assoc]
            · obtain ⟨rest, h4'⟩ := Option.isSome_iff_exists.mp h4
              have hr3 := (dropLit_eq_some _ _ _).mp h4'
              refine ⟨proj, run, "processed_data".data, rest, ?_, hpne, hpall,
                hrne, hrall, Or.inr (Or.inl rfl)⟩
              rw [hl0, hr0, hr1, hr2, hr3]
              simp [List.append_assoc]
            · obtain ⟨rest, h4'⟩ := Option.isSome_iff_exists.mp h4
              have hr3 := (dropLit_eq_some _ _ _).mp h4'
              refine ⟨proj, run, "HDF5".data, rest, ?_, hpne, hpall,
                hrne, hrall, Or.inr (Or.inr rfl)⟩
              rw [hl0, hr0, hr1, hr2, hr3]
              simp [List.append_assoc]
  · rintro ⟨proj, run, dt, rest, hl, hpne, hpall, hrne, hrall, hdt⟩
    subst hl
    unfold matchRunDataPath
    have h0 : dropLit (pre ++ "/".data)
        (pre ++ "/".data ++ proj ++ "/runs/".data ++ run ++ "/".data ++ dt ++
          "/".data ++ rest) =
        some (proj ++ ("/runs/".data ++ (run ++ ("/".data ++ (dt ++
          ("/".data ++ rest)))))) :=
      (dropLit_eq_some _ _ _).mpr (by simp [List.append_assoc])
    simp only [h0]
    have h1 : matchSeg (proj ++ ("/runs/".data ++ (run ++ ("/".data ++ (dt ++
        ("/".data ++ rest)))))) =
        some (proj, "/runs/".data ++ (run ++ ("/".data ++ (dt ++
          ("/".data ++ rest))))) := by
      refine matchSeg_append _ _ hpne hpall ?_
      intro c hc
      have hch : c = '/' := by
        have : ("/runs/".data ++ (run ++ ("/".data ++ (dt ++
            ("/".data ++ rest))))).head? = some '/' := rfl
        rw [this] at hc
        exact (Option.some.injEq _ _ ▸ hc).symm
      subst hch
      decide
    simp only [h1]
    have h2 : dropLit "/runs/".data ("/runs/".data ++ (run ++ ("/".data ++
        (dt ++ ("/".data ++ rest))))) =
        some (run ++ ("/".data ++ (dt ++ ("/".data ++ rest)))) :=
      (dropLit_eq_some _ _ _).mpr rfl
    simp only [h2]
    have h3 : matchSeg (run ++ ("/".data ++ (dt ++ ("/".data ++ rest)))) =
        some (run, "/".data ++ (dt ++ ("/".data ++ rest))) := by
      refine matchSeg_append _ _ hrne hrall ?_
      intro c hc
      have hch : c = '/' := by
        have : ("/".data ++ (dt ++ ("/".data ++ rest))).head? = some '/' := rfl
        rw [this] at hc
        exact (Option.some.injEq _ _ ▸ hc).symm
      subst hch
      decide
    simp only [h3]
    rcases hdt with h | h | h <;> subst h
    · have h4 : dropLit "/raw_data/".data ("/".data ++ ("raw_data".data ++
          ("/".data ++ rest))) = some rest := by
        refine (dropLit_eq_some _ _ _).mpr ?_
        rw [show "/raw_data/".data = "/".data ++ "raw_data".data ++ "/".data
          from rfl]
        simp [List.append_assoc]
      simp only [h4]
      simp
    · have h4 : dropLit "/processed_data/".data ("/".data ++
          ("processed_data".data ++ ("/".data ++ rest))) = some rest := by
        refine (dropLit_eq_some _ _ _).mpr ?_
        rw [show "/processed_data/".data =
          "/".data ++ "processed_data".data ++ "/".data from rfl]
        simp [List.append_assoc]
      simp only [h4]
      simp
    · have h4 : dropLit "/HDF5/".data ("/".data ++ ("HDF5".data ++
          ("/".data ++ rest))) = some rest := by
        refine (dropLit_eq_some _ _ _).mpr ?_
        rw [show "/HDF5/".data = "/".data ++ "HDF5".data ++ "/".data from rfl]
        simp [List.append_assoc]
      simp only [h4]
      simp

/-- Deleting a leading occurrence of a nonempty pattern. -/
theorem replaceFirst_append (pat r : List Char) (hne : pat ≠ []) :
    replaceFirst pat (pat ++ r) = r := by
  cases pat with
  | nil => exact absurd rfl hne
  | cons p ps =>
    have hd : dropLit (p :: ps) (p :: (ps ++ r)) = some r :=
      (dropLit_eq_some _ _ _).mpr rfl
    simp [replaceFirst, hd]

/-- Lemma: `pathlib.Path.parts[0]` of a segment followed by a slash-headed tail is
the segment. -/
theorem firstPart_append (seg tl : List Char)
    (hall : ∀ c ∈ seg, isSegChar c = true)
    (hhd : ∀ c, tl.head? = some c → c = '/') :
    firstPart (seg ++ tl) = seg := by
  unfold firstPart
  refine (takeWhile_append_stop _ seg tl ?_ ?_).1
  · intro x hx
    have hne := isSegChar_ne_slash (hall x hx)
    simp [hne]
  · intro c hc
    have hce := hhd c hc
    subst hce
    simp

/-- C1: `validate_run_data_file_path` succeeds exactly on the paths
`<prefix>/<proj>/runs/<run>/(raw_data|processed_data|HDF5)/...` whose
`proj` and `run` are nonempty `[\w\- ]` segments and whose user owns
`proj` or is admin; and on a well-formed path whose project the (non-admin)
user does not own, it raises the `IncorrectDataFilePath` error whose message
is `user is not part of project <name>`.  (Paths missing a segment, using a
disallowed data type, or containing `|` in `proj`/`run` admit no such
decomposition, so they fall outside the right-hand side and fail.) -/
theorem validate_run_data_path_correct (pre path : String) (u : User) :
    (validate_run_data_file_path pre path u = Except.ok () ↔
      ∃ proj run dt rest : String,
        path = pre ++ "/" ++ proj ++ "/runs/" ++ run ++ "/" ++ dt ++ "/" ++
          rest ∧
        proj.data ≠ [] ∧ (∀ c ∈ proj.data, isSegChar c = true) ∧
        run.data ≠ [] ∧ (∀ c ∈ run.data, isSegChar c = true) ∧
        (dt = "raw_data" ∨ dt = "processed_data" ∨ dt = "HDF5") ∧
        (u.has_project proj = true ∨ u.is_admin = true)) ∧
    (∀ proj run dt rest : String,
      path = pre ++ "/" ++ proj ++ "/runs/" ++ run ++ "/" ++ dt ++ "/" ++
        rest →
      proj.data ≠ [] → (∀ c ∈ proj.data, isSegChar c = true) →
      run.data ≠ [] → (∀ c ∈ run.data, isSegChar c = true) →
      (dt = "raw_data" ∨ dt = "processed_data" ∨ dt = "HDF5") →
      u.has_project proj = false → u.is_admin = false →
      validate_run_data_file_path pre path u =
        Except.error (ValidationError.userNotInProject proj) ∧
      (ValidationError.userNotInProject proj).message =
        "user is not part of project " ++ proj) := by
  have hname : ∀ projL runL dtL restL : List Char,
      path.data = pre.data ++ "/".data ++ projL ++ "/runs/".data ++ runL ++
        "/".data ++ dtL ++ "/".data ++ restL →
      (∀ c ∈ projL, isSegChar c = true) →
      String.mk (firstPart (replaceFirst (pre.data ++ "/".data) path.data)) =
        String.mk projL := by
    intro projL runL dtL restL hl hall
    rw [hl, show pre.data ++ "/".data ++ projL ++ "/runs/".data ++ runL ++
        "/".data ++ dtL ++ "/".data ++ restL =
        (pre.data ++ "/".data) ++ (projL ++ ("/runs/".data ++ (runL ++
          ("/".data ++ (dtL ++ ("/".data ++ restL)))))) from by
      simp [List.append_assoc]]
    have hne : pre.data ++ "/".data ≠ [] := by simp
    rw [replaceFirst_append _ _ hne]
    have hhd : ∀ c, ("/runs/".data ++ (runL ++ ("/".data ++ (dtL ++
        ("/".data ++ restL))))).head? = some c → c = '/' := by
      intro c hc
      rw [show ("/runs/".data ++ (runL ++ ("/".data ++ (dtL ++
        ("/".data ++ restL))))).head? = some '/' from rfl] at hc
      exact (Option.some.inj hc).symm
    rw [firstPart_append projL _ hall hhd]
  constructor
  · constructor
    · intro hok
      by_cases hm : matchRunDataPath pre.data path.data = true
      · obtain ⟨projL, runL, dtL, restL, hl, hpne, hpall, hrne, hrall, hdt⟩ :=
          (matchRunDataPath_iff _ _).mp hm
        have hnm := hname projL runL dtL restL hl hpall
        have hok2 : validate_project_file_path pre path u = Except.ok () := by
          unfold validate_run_data_file_path at hok
          rwa [if_pos hm] at hok
        unfold validate_project_file_path at hok2
        have hmem : u.has_project (String.mk projL) = true ∨
            u.is_admin = true := by
          rw [← hnm]
          cases ha : u.has_project (String.mk (firstPart
              (replaceFirst (pre.data ++ "/".data) path.data))) with
          | true => exact Or.inl rfl
          | false =>
            cases hb : u.is_admin with
            | true => exact Or.inr rfl
            | false => simp [ha, hb] at hok2
        refine ⟨String.mk projL, String.mk runL, String.mk dtL,
          String.mk restL, ?_, hpne, hpall, hrne, hrall, ?_, hmem⟩
        · exact String.ext (by rw [hl]; simp [String.data_append])
        · rcases hdt with h | h | h
          · exact Or.inl (by rw [h])
          · exact Or.inr (Or.inl (by rw [h]))
          · exact Or.inr (Or.inr (by rw [h]))
      · exfalso
        unfold validate_run_data_file_path at hok
        rw [if_neg hm] at hok
        exact Except.noConfusion hok
    · rintro ⟨proj, run, dt, rest, hpath, hpne, hpall, hrne, hrall, hdt, hmem⟩
      have hl : path.data = pre.data ++ "/".data ++ proj.data ++
          "/runs/".data ++ run.data ++ "/".data ++ dt.data ++ "/".data ++
          rest.data := by
        rw [hpath]
        simp [String.data_append]
      have hdtL : dt.data = "raw_data".data ∨
          dt.data = "processed_data".data ∨ dt.data = "HDF5".data := by
        rcases hdt with h | h | h
        · exact Or.inl (by rw [h])
        · exact Or.inr (Or.inl (by rw [h]))
        · exact Or.inr (Or.inr (by rw [h]))
      have hm : matchRunDataPath pre.data path.data = true :=
        (matchRunDataPath_iff _ _).mpr ⟨proj.data, run.data, dt.data,
          rest.data, hl, hpne, hpall, hrne, hrall, hdtL⟩
      have hnm := hname proj.data run.data dt.data rest.data hl hpall
      have heta : String.mk proj.data = proj := rfl
      have hcond : (!u.has_project (String.mk (firstPart
          (replaceFirst (pre.data ++ "/".data) path.data))) &&
          !u.is_admin) = false := by
        rw [hnm, heta]
        rcases hmem with h | h <;> simp [h]
      unfold validate_run_data_file_path
      rw [if_pos hm]
      simp [validate_project_file_path, hcond]
  · intro proj run dt rest hpath hpne hpall hrne hrall hdt hhas hadmin
    have hl : path.data = pre.data ++ "/".data ++ proj.data ++
        "/runs/".data ++ run.data ++ "/".data ++ dt.data ++ "/".data ++
        rest.data := by
      rw [hpath]
      simp [String.data_append]
    have hdtL : dt.data = "raw_data".data ∨
        dt.data = "processed_data".data ∨ dt.data = "HDF5".data := by
      rcases hdt with h | h | h
      · exact Or.inl (by rw [h])
      · exact Or.inr (Or.inl (by rw [h]))
      · exact Or.inr (Or.inr (by rw [h]))
    have hm : matchRunDataPath pre.data path.data = true :=
      (matchRunDataPath_iff _ _).mpr ⟨proj.data, run.data, dt.data,
        rest.data, hl, hpne, hpall, hrne, hrall, hdtL⟩
    have hnm := hname proj.data run.data dt.data rest.data hl hpall
    have heta : String.mk proj.data = proj := rfl
    have hcond : (!u.has_project (String.mk (firstPart
        (replaceFirst (pre.data ++ "/".data) path.data))) &&
        !u.is_admin) = true := by
      rw [hnm, heta, hhas, hadmin]
      rfl
    constructor
    · unfold validate_run_data_file_path
      rw [if_pos hm]
      simp [validate_project_file_path, hcond, hnm, heta, hhas, hadmin]
    · rfl

/-- A regular (non-admin) user who is a member of project `hello` only. -/
def demoUser : User :=
  { id := 1, projects := [{ id := 2, name := "hello" }], is_admin := false }

/-- Witness for C1: the member's path under `hello` validates; the same path
under `otherproject` fails with the membership message. -/
theorem validate_run_data_path_correct_witness :
    validate_run_data_file_path "projects"
      "projects/hello/runs/world/raw_data/f.txt" demoUser = Except.ok () ∧
    validate_run_data_file_path "projects"
      "projects/otherproject/runs/world/raw_data/f.txt" demoUser =
      Except.error (ValidationError.userNotInProject "otherproject") ∧
    (ValidationError.userNotInProject "otherproject").message =
      "user is not part of project otherproject" := by
  refine ⟨?_, ?_, rfl⟩
  · exact (validate_run_data_path_correct "projects"
      "projects/hello/runs/world/raw_data/f.txt" demoUser).1.mpr
      ⟨"hello", "world", "raw_data", "f.txt", rfl, by decide, by decide,
        by decide, by decide, Or.inl rfl, Or.inl (by decide)⟩
  · exact ((validate_run_data_path_correct "projects"
      "projects/otherproject/runs/world/raw_data/f.txt" demoUser).2
      "otherproject" "world" "raw_data" "f.txt" rfl (by decide) (by decide)
      (by decide) (by decide) (Or.inl rfl) (by decide) (by decide)).1

/-- C2: for every issued capability token, the permission set is exactly the
fixed table: run-data access grants read only to a regular user and
read+write+create+delete to an admin; document upload grants write+create
and neither read nor delete; document read/delete grants read+delete and
neither write nor create. -/
theorem permission_table (account shareName : String) (sign : SasRequest → String)
    (dirPath fileName pre projectName : String) (now : Nat) :
    (generate_run_data_sas_url account shareName sign dirPath fileName false
        now).2.permission =
      { read := true, write := false, create := false, delete := false } ∧
    (generate_run_data_sas_url account shareName sign dirPath fileName true
        now).2.permission =
      { read := true, write := true, create := true, delete := true } ∧
    (generate_project_documents_upload_sas_url account shareName sign pre
        projectName fileName now).2.permission =
      { read := false, write := true, create := true, delete := false } ∧
    (generate_project_documents_sas_url account shareName sign dirPath fileName
        now).2.permission =
      { read := true, write := false, create := false, delete := true } :=
  ⟨rfl, rfl, rfl, rfl⟩

/-- C6: every issued token has `start = now`, `expiry = now + 5 minutes`,
its signature request embeds exactly `(share, directory, file, permission,
start, expiry)`, and the URL is exactly
`https://{account}.file.core.windows.net/{share}/{directory}/{file}?{signature-params}`. -/
theorem sas_url_contract (account shareName : String) (sign : SasRequest → String)
    (dirPath fileName : String) (perm : FilePermissions) (now : Nat) :
    (generate_sas_url account shareName sign dirPath fileName perm now).2.start
        = now ∧
    (generate_sas_url account shareName sign dirPath fileName perm now).2.expiry
        = now + 5 * 60 ∧
    (generate_sas_url account shareName sign dirPath fileName perm now).2 =
      { share_name := shareName, directory_name := dirPath,
        file_name := fileName, permission := perm, start := now,
        expiry := now + 5 * 60 } ∧
    (generate_sas_url account shareName sign dirPath fileName perm now).1 =
      "https://" ++ account ++ ".file.core.windows.net/" ++ shareName ++ "/" ++
        dirPath ++ "/" ++ fileName ++ "?" ++
        sign (generate_sas_url account shareName sign dirPath fileName perm
          now).2 :=
  ⟨rfl, rfl, rfl, rfl⟩

/-- C3 (code bug): the recursive call of `_list_files_recursive` does not
forward `fetch_detailed_information`, so in detailed mode a file inside a
subdirectory is yielded in fast mode with `last_modified` absent, while the
top-level file of the same listing carries its last-modified time. -/
theorem detailed_listing_drops_flag_in_recursion :
    (listFilesRecursive "root" true
        [FsEntry.dir "sub" [FsEntry.file "nested.txt" 4 99],
          FsEntry.file "top.txt" 2 42]).map ProjectFile.last_modified =
      [none, some 42] := by
  simp [listFilesRecursive]

/-- C4 (counterexample): the walker does not yield a directory's direct file
entries before descending into its subdirectories; with the provider listing
`[dir "d" [file "nested"], file "direct"]` the descendant `nested` of the
subdirectory is yielded strictly before the direct file `direct` of the same
directory. -/
theorem files_not_yielded_before_subdirs :
    (((listFilesRecursive "r" false
        [FsEntry.dir "d" [FsEntry.file "nested" 1 1],
          FsEntry.file "direct" 1 1]).map ProjectFile.name) =
      ["nested", "direct"]) ∧
    (((listFilesRecursive "r" false
        [FsEntry.dir "d" [FsEntry.file "nested" 1 1],
          FsEntry.file "direct" 1 1]).map ProjectFile.name).indexOf "nested" <
      ((listFilesRecursive "r" false
        [FsEntry.dir "d" [FsEntry.file "nested" 1 1],
          FsEntry.file "direct" 1 1]).map ProjectFile.name).indexOf "direct") := by
  have h : (listFilesRecursive "r" false
      [FsEntry.dir "d" [FsEntry.file "nested" 1 1],
        FsEntry.file "direct" 1 1]).map ProjectFile.name =
      ["nested", "direct"] := by
    simp [listFilesRecursive]
  rw [h]
  exact ⟨rfl, by decide⟩

/-- C4 (amended): the walker traverses depth-first in provider listing
order: each entry is handled at the point it appears, a file is yielded
there, and a subdirectory's descendants are fully yielded there, before the
walker moves to the directory's next entry.  The yielded names are exactly
the in-order flattening of the tree, for every path argument and either
metadata mode. -/
theorem walker_yields_in_provider_order (dirPath : String) (detailed : Bool)
    (es : List FsEntry) :
    (listFilesRecursive dirPath detailed es).map ProjectFile.name =
      flattenNames es := by
  induction dirPath, detailed, es using listFilesRecursive.induct with
  | case1 d det => simp [listFilesRecursive, flattenNames]
  | case2 d det name children rest ih1 ih2 =>
    simp [listFilesRecursive, flattenNames, ih1, ih2]
  | case3 d det name size lm rest ih =>
    simp only [listFilesRecursive, flattenNames]
    split <;> simp [ih]

/-- Driving one stream through 129 reads of 129 distinct single-byte
ranges. -/
def lruDemoStream : FileStream :=
  (List.range 129).foldl (fun s i => (read (seekSet s (i : Int)) 1).2)
    (freshStream [])

/-- C5: listing a nonexistent top-level directory yields the call site's
domain error (`RunDataNotFound` for run data, `ProjectDocumentsNotFound`
for documents) and never an empty (or any) success list; when the directory
exists, the listing succeeds with the walked files. -/
theorem listing_not_found_raises_domain_error
    (provider : String → Option (List FsEntry))
    (pre projectName runName dataType : String) :
    (provider (joinPath [pre, projectName, "runs", runName, dataType]) = none →
      get_run_files provider pre projectName runName dataType =
        Except.error ListingError.runDataNotFound ∧
      ∀ files, get_run_files provider pre projectName runName dataType ≠
        Except.ok files) ∧
    (∀ entries,
      provider (joinPath [pre, projectName, "runs", runName, dataType]) =
          some entries →
      get_run_files provider pre projectName runName dataType =
        Except.ok (listFilesRecursive
          (joinPath [pre, projectName, "runs", runName, dataType]) false
          entries)) ∧
    (provider (joinPath [pre, projectName, "documents"]) = none →
      get_project_documents provider pre projectName =
        Except.error ListingError.projectDocumentsNotFound ∧
      ∀ files, get_project_documents provider pre projectName ≠
        Except.ok files) ∧
    (∀ entries,
      provider (joinPath [pre, projectName, "documents"]) = some entries →
      get_project_documents provider pre projectName =
        Except.ok (listFilesRecursive (joinPath [pre, projectName, "documents"])
          true entries)) := by
  refine ⟨fun h => ?_, fun entries h => ?_, fun h => ?_, fun entries h => ?_⟩ <;>
    simp [get_run_files, get_project_documents, listFilesTop, h]

/-- A one-file provider snapshot: only the run-data directory
`projects/demo/runs/r1/raw_data` exists. -/
def demoProvider : String → Option (List FsEntry) := fun p =>
  if p = "projects/demo/runs/r1/raw_data" then some [FsEntry.file "a.txt" 3 9]
  else none

/-- Witness for C5 at a concrete provider snapshot: the existing run-data
directory lists its file, the missing documents directory raises the domain
error and is not an empty success. -/
theorem listing_not_found_raises_domain_error_witness :
    get_run_files demoProvider "projects" "demo" "r1" "raw_data" =
      Except.ok
        [⟨"a.txt", none, 3, some "projects/demo/runs/r1/raw_data/a.txt"⟩] ∧
    get_project_documents demoProvider "projects" "demo" =
      Except.error ListingError.projectDocumentsNotFound ∧
    (∀ files, get_project_documents demoProvider "projects" "demo" ≠
      Except.ok files) := by
  have h := listing_not_found_raises_domain_error demoProvider "projects" "demo"
    "r1" "raw_data"
  refine ⟨?_, (h.2.2.1 rfl).1, (h.2.2.1 rfl).2⟩
  rw [h.2.1 [FsEntry.file "a.txt" 3 9] rfl]
  simp only [listFilesRecursive]
  rfl

/-- C9: `rename_run_directory` requests the rename of
`<prefix>/<slug(project)>/runs/<run>` to `<prefix>/<slug(project)>/runs/<new>`
with overwrite disabled; a missing source or an existing destination is a
`FolderCreationError` carrying the provider's message (and the share is only
modified in the success branch, so the source is left intact on error); it
never silently overwrites an existing destination. -/
theorem rename_run_contract (share : ShareDirs)
    (pre runName projectName newName : String) :
    (rename_run_directory share pre runName projectName newName).1.overwrite
        = false ∧
    (rename_run_directory share pre runName projectName newName).1.src =
      joinPath [pre, slugify projectName, "runs", runName] ∧
    (rename_run_directory share pre runName projectName newName).1.dst =
      joinPath [pre, slugify projectName, "runs", newName] ∧
    ((rename_run_directory share pre runName projectName newName).1.src ∉
        share →
      (rename_run_directory share pre runName projectName newName).2 =
        Except.error { message := resourceNotFoundMessage }) ∧
    ((rename_run_directory share pre runName projectName newName).1.src ∈
        share →
      (rename_run_directory share pre runName projectName newName).1.dst ∈
        share →
      (rename_run_directory share pre runName projectName newName).2 =
        Except.error { message := resourceExistsMessage }) ∧
    ((rename_run_directory share pre runName projectName newName).1.src ∈
        share →
      (rename_run_directory share pre runName projectName newName).1.dst ∉
        share →
      (rename_run_directory share pre runName projectName newName).2 =
        Except.ok (share.map (renamePath
          (rename_run_directory share pre runName projectName newName).1.src
          (rename_run_directory share pre runName projectName newName).1.dst))) ∧
    (∀ share',
      (rename_run_directory share pre runName projectName newName).2 =
        Except.ok share' →
      (rename_run_directory share pre runName projectName newName).1.dst ∉
        share ∧
      share' = share.map (renamePath
        (rename_run_directory share pre runName projectName newName).1.src
        (rename_run_directory share pre runName projectName newName).1.dst)) := by
  unfold rename_run_directory renameDirectory
  by_cases h1 :
      joinPath [pre, slugify projectName, "runs", runName] ∈ share <;>
    by_cases h2 :
        joinPath [pre, slugify projectName, "runs", newName] ∈ share <;>
      simp [h1, h2, AzureError.message]

/-- Witness for C9 on a concrete share: renaming `myrun` to the existing
`myrun2` under project `My Project` fails with the provider's
already-exists message; renaming it to the fresh `myrun3` succeeds. -/
theorem rename_run_contract_witness :
    (rename_run_directory
        ["projects/my-project/runs/myrun", "projects/my-project/runs/myrun2"]
        "projects" "myrun" "My Project" "myrun2").2 =
      Except.error { message := resourceExistsMessage } ∧
    (rename_run_directory
        ["projects/my-project/runs/myrun", "projects/my-project/runs/myrun2"]
        "projects" "myrun" "My Project" "myrun3").2 =
      Except.ok
        ["projects/my-project/runs/myrun3", "projects/my-project/runs/myrun2"] := by
  constructor
  · exact (rename_run_contract
        ["projects/my-project/runs/myrun", "projects/my-project/runs/myrun2"]
        "projects" "myrun" "My Project" "myrun2").2.2.2.2.1 (by decide) (by decide)
  · rw [(rename_run_contract
        ["projects/my-project/runs/myrun", "projects/my-project/runs/myrun2"]
        "projects" "myrun" "My Project" "myrun3").2.2.2.2.2.1 (by decide)
        (by decide)]
    rfl

/-- Evaluation of a positive-size `read` on a cache miss. -/
theorem read_miss_eval (t : FileStream) (size : Int) (h0 : size ≠ 0)
    (h1 : size > -1)
    (hx : cacheExtract (t.offset, some (t.offset + size - 1)) t.chunkCache =
      none) :
    (read t size).1 =
      (t.content.take ((t.offset + size - 1).toNat + 1)).drop t.offset.toNat ∧
    (read t size).2.offset = t.offset + size ∧
    (read t size).2.content = t.content ∧
    (read t size).2.chunkCache =
      (((t.offset, some (t.offset + size - 1)),
          ((t.content.take ((t.offset + size - 1).toNat + 1)).drop
              t.offset.toNat,
            t.content.length)) :: t.chunkCache).take lruMaxSize := by
  simp only [read, if_neg h0, if_pos h1]
  unfold readChunk
  simp only [hx]
  simp [fetchRange]

/-- Evaluation of a read-to-end (`size < 0`) `read` on a cache miss. -/
theorem read_toEnd_eval (t : FileStream) (size : Int) (h0 : size ≠ 0)
    (h1 : ¬size > -1)
    (hx : cacheExtract (t.offset, (none : Option Int)) t.chunkCache = none) :
    (read t size).1 = t.content.drop t.offset.toNat := by
  simp only [read, if_neg h0, if_neg h1]
  unfold readChunk
  simp only [hx]
  simp [fetchRange]

/-- C8: on a fresh stream, reading `k` bytes and then the remaining
`L - k` bytes yields, concatenated, the same bytes as a single read-to-end
(`read(-1)`) on a fresh stream — the whole remote file. -/
theorem read_split_concat (content : List Nat) (k : Nat)
    (hk : k ≤ content.length) :
    (read (freshStream content) (k : Int)).1 ++
      (read (read (freshStream content) (k : Int)).2
        ((content.length : Int) - (k : Int))).1 =
      (read (freshStream content) (-1)).1 := by
  have hR : (read (freshStream content) (-1)).1 = content := by
    rw [read_toEnd_eval (freshStream content) (-1) (by decide) (by decide) rfl]
    simp [freshStream]
  rw [hR]
  rcases Nat.eq_zero_or_pos k with hk0 | hkpos
  · subst hk0
    have h1 : read (freshStream content) ((0 : Nat) : Int) =
        ([], freshStream content) := by
      norm_num [read]
    simp only [h1]
    rcases Nat.eq_zero_or_pos content.length with hL | hL
    · have hnil : content = [] := List.eq_nil_of_length_eq_zero hL
      subst hnil
      norm_num [read]
    · have h2 := read_miss_eval (freshStream content)
        ((content.length : Int) - ((0 : Nat) : Int)) (by omega) (by omega) rfl
      rw [List.nil_append, h2.1]
      have key : ∀ m n : Nat, m = 0 → n = content.length →
          ((freshStream content).content.take n).drop m = content := by
        intro m n hm hn
        subst hm
        subst hn
        rw [List.drop_zero]
        exact List.take_length content
      exact key _ _ rfl (by simp only [freshStream]; omega)
  · have h1 := read_miss_eval (freshStream content) (k : Int) (by omega)
      (by omega) rfl
    have harith1 : (((freshStream content).offset + (k : Int) - 1).toNat + 1)
        = k := by
      simp only [freshStream]
      omega
    have hb1 : (read (freshStream content) (k : Int)).1 = content.take k := by
      rw [h1.1, harith1]
      have hoff : ((freshStream content).offset).toNat = 0 := rfl
      rw [hoff, List.drop_zero]
      rfl
    rcases Nat.lt_or_ge k content.length with hklt | hkge
    · -- second read of the strictly positive remainder
      have hoff1 : (read (freshStream content) (k : Int)).2.offset =
          (k : Int) := by
        rw [h1.2.1]
        simp [freshStream]
      have hcontent1 : (read (freshStream content) (k : Int)).2.content =
          content := h1.2.2.1
      have hcache1 : (read (freshStream content) (k : Int)).2.chunkCache =
          [(((freshStream content).offset,
              some ((freshStream content).offset + (k : Int) - 1)),
            ((content.take (((freshStream content).offset + (k : Int) - 1).toNat
                + 1)).drop ((freshStream content).offset).toNat,
              content.length))] := by
        rw [h1.2.2.2]
        rfl
      have hextract : ∀ (k1 k2 : ChunkKey) (v : ChunkVal), ¬k1 = k2 →
          cacheExtract k2 [(k1, v)] = none := by
        intro k1 k2 v h
        simp [cacheExtract, h]
      have hx2 : cacheExtract
          ((read (freshStream content) (k : Int)).2.offset,
            some ((read (freshStream content) (k : Int)).2.offset +
              ((content.length : Int) - (k : Int)) - 1))
          (read (freshStream content) (k : Int)).2.chunkCache = none := by
        rw [hcache1, hoff1]
        apply hextract
        simp only [freshStream, Prod.mk.injEq, not_and]
        intro hfst
        exact absurd hfst (by omega)
      have h2 := read_miss_eval ((read (freshStream content) (k : Int)).2)
        ((content.length : Int) - (k : Int)) (by omega) (by omega) hx2
      rw [hb1, h2.1, hcontent1, hoff1]
      have harith2 : ((((k : Int)) + ((content.length : Int) - (k : Int)) -
          1).toNat + 1) = content.length := by omega
      have harith3 : ((k : Int)).toNat = k := by omega
      rw [harith2, harith3, List.take_length, List.take_append_drop]
    · -- k = L: the second read has size 0
      have hkL : k = content.length := le_antisymm hk hkge
      have h2 : read (read (freshStream content) (k : Int)).2
          ((content.length : Int) - (k : Int)) =
          ([], (read (freshStream content) (k : Int)).2) := by
        have hz : (content.length : Int) - (k : Int) = 0 := by omega
        rw [hz]
        simp [read]
      rw [h2, hb1, List.append_nil, hkL, List.take_length]

/-- Witness for C8: splitting the three-byte file `[7, 8, 9]` at `k = 2`
reproduces the single read-to-end result, which is the whole content. -/
theorem read_split_concat_witness :
    (2 ≤ [7, 8, 9].length) ∧
    ((read (freshStream [7, 8, 9]) ((2 : Nat) : Int)).1 ++
      (read (read (freshStream [7, 8, 9]) ((2 : Nat) : Int)).2
        (([7, 8, 9].length : Int) - ((2 : Nat) : Int))).1 =
      (read (freshStream [7, 8, 9]) (-1)).1) ∧
    (read (freshStream [7, 8, 9]) (-1)).1 = [7, 8, 9] := by
  refine ⟨by decide, read_split_concat [7, 8, 9] 2 (by decide), by decide⟩

/-- C10: `seek` returns and stores the new offset: `SEEK_SET` sets it to
`offset`, `SEEK_CUR` adds `offset` to the current position, and `SEEK_END`
sets it to `content_length - offset` — the inversion of the standard io
convention — so `seek(0, SEEK_END)` positions at end-of-file and a negative
offset positions strictly past the end; the content length is the remote
file's length, fetched by the metadata call on first use. -/
theorem seek_semantics (s : FileStream) (off : Int) :
    (seek s off Whence.set).1 = off ∧
    (seek s off Whence.set).2.offset = off ∧
    (seek s off Whence.cur).1 = s.offset + off ∧
    (seek s off Whence.cur).2.offset = s.offset + off ∧
    (seek s off Whence.seekEnd).1 = ((content_length s).1 : Int) - off ∧
    (seek s off Whence.seekEnd).2.offset = ((content_length s).1 : Int) - off ∧
    (s.lengthCache = none → (content_length s).1 = s.content.length) ∧
    (seek s 0 Whence.seekEnd).1 = ((content_length s).1 : Int) ∧
    (off < 0 → ((content_length s).1 : Int) < (seek s off Whence.seekEnd).1) := by
  refine ⟨rfl, rfl, rfl, rfl, rfl, rfl, fun h => ?_, ?_, fun h => ?_⟩
  · simp [content_length, h]
  · simp [seek]
  · simp only [seek]
    omega

/-- Witness for C10 on a three-byte file: the length comes from the metadata
call, and `seek(-2, SEEK_END)` positions past the end (at `3 - (-2) = 5`). -/
theorem seek_semantics_witness :
    (content_length (freshStream [1, 2, 3])).1 = 3 ∧
    ((content_length (freshStream [1, 2, 3])).1 : Int) <
      (seek (freshStream [1, 2, 3]) (-2) Whence.seekEnd).1 ∧
    (seek (freshStream [1, 2, 3]) (-2) Whence.seekEnd).1 = 5 := by
  have h := seek_semantics (freshStream [1, 2, 3]) (-2)
  exact ⟨by rw [h.2.2.2.2.2.2.1 rfl]; rfl, h.2.2.2.2.2.2.2.2 (by decide),
    by decide⟩

/-- Look up the head of a cache whose most recent entry is the key. -/
theorem cacheExtract_cons_self (k : ChunkKey) (v : ChunkVal)
    (rest : List (ChunkKey × ChunkVal)) :
    cacheExtract k ((k, v) :: rest) = some (v, rest) := by
  simp [cacheExtract]

/-- After any `_read_chunk` call, the requested key sits at the
most-recently-used head of the cache with the returned value, and the
stream's remote content is untouched. -/
theorem readChunk_cache_head (s : FileStream) (a : Int) (b : Option Int) :
    ∃ tail, (readChunk s a b).2.chunkCache =
        ((a, b), (readChunk s a b).1) :: tail ∧
      (readChunk s a b).2.fetches ≥ s.fetches := by
  unfold readChunk
  cases h : cacheExtract (a, b) s.chunkCache with
  | none =>
    refine ⟨s.chunkCache.take 127, ?_, ?_⟩ <;>
      simp [h, lruMaxSize, List.take_succ_cons]
  | some p =>
    obtain ⟨v, rest⟩ := p
    exact ⟨rest, by simp [h], by simp [h]⟩

set_option maxRecDepth 8000 in
/-- C7 (counterexample): the `functools.lru_cache` on `_read_chunk` has the
default `maxsize=128`, so the memoization does not hold for unboundedly many
distinct ranges: after 129 reads of distinct ranges (129 fetches), repeating
the very first read — a range already fetched by this stream — performs a
second network fetch (fetch count 130). -/
theorem lru_cache_is_bounded :
    lruDemoStream.fetches = 129 ∧
    (read (seekSet lruDemoStream 0) 1).2.fetches = 130 := by
  refine ⟨?_, ?_⟩ <;> decide

/-- C7 (amended): while a range's entry is still in the cache the
memoization does hold; in particular repeating an identical `read`
immediately, after seeking back to the same offset, returns the same bytes
and performs no second network fetch, from any stream state. -/
theorem read_repeat_is_cache_hit (s : FileStream) (size : Int) :
    (read (seekSet (read s size).2 s.offset) size).1 = (read s size).1 ∧
    (read (seekSet (read s size).2 s.offset) size).2.fetches =
      (read s size).2.fetches := by
  by_cases h0 : size = 0
  · subst h0
    simp [read, seekSet, seek]
  · by_cases hgt : size > -1
    · simp only [read, seekSet, seek, if_neg h0, if_pos hgt]
      unfold readChunk
      cases hx : cacheExtract (s.offset, some (s.offset + size - 1))
          s.chunkCache with
      | some p =>
        obtain ⟨v, rest⟩ := p
        simp [hx, cacheExtract_cons_self]
      | none =>
        simp [hx, lruMaxSize, List.take_succ_cons, cacheExtract_cons_self]
    · simp only [read, seekSet, seek, if_neg h0, if_neg hgt]
      unfold readChunk
      cases hx : cacheExtract (s.offset, (none : Option Int)) s.chunkCache with
      | some p =>
        obtain ⟨v, rest⟩ := p
        simp [hx, cacheExtract_cons_self]
      | none =>
        simp [hx, lruMaxSize, List.take_succ_cons, cacheExtract_cons_self]

end Euphro
